import Mathlib

/-!
Verification development for the Gujarati tokenizer
(`lab1/gujarati_tokenizer.py`).

The source builds nine named regular-expression rules, classifies a token
by trying the rules in a fixed order with `re.match` (an anchored prefix
match), segments text into tokens with `re.findall` over the ordered
alternation of all nine rules, and splits sentences with
`re.split(r'[।॥.!?]+\s*', text.strip())`.  The aggregation layer computes
corpus statistics with explicit zero-guards and `round`.

The embedding below represents each rule as a value of a small regex type
`Re` whose matcher enumerates, in backtracking priority order, all the
ways a prefix of the input can be consumed (leftmost alternative first,
greedy repetition longest first), exactly the order in which the Python
backtracking engine visits candidates; the first element of that
enumeration is the match `re` returns.  All repetition in the source
patterns is over single-character classes, which keeps the enumeration
structural.

Unicode caveats, documented here once: Python `\w`, `\d`, `\s` are
Unicode-aware.  The embedding fixes them on the scripts this program
processes (ASCII and the Gujarati block U+0A80..U+0AFF, plus the
Devanagari danda characters and common whitespace); combining vowel signs
(matras) are correctly treated as non-word characters, as CPython does.
Python floats are modelled as exact rationals, with `round` modelled as
round-half-to-even at the given number of decimal digits.
-/

namespace GujTok

/-- Unicode whitespace as matched by Python regex class backslash-s:
ASCII whitespace, the C1/latin additions, and the Unicode space
separators. -/
def isPySpace (c : Char) : Bool :=
  let n := c.toNat
  (n == 0x20) || (0x9 ≤ n && n ≤ 0xD) || (0x1C ≤ n && n ≤ 0x1F) ||
  (n == 0x85) || (n == 0xA0) || (n == 0x1680) ||
  (0x2000 ≤ n && n ≤ 0x200A) ||
  (n == 0x2028) || (n == 0x2029) || (n == 0x202F) || (n == 0x205F) ||
  (n == 0x3000)

/-- ASCII digit, as in the explicit classes of the source patterns. -/
def isAsciiDigit (c : Char) : Bool :=
  0x30 ≤ c.toNat && c.toNat ≤ 0x39

/-- ASCII letter A-Z or a-z, the class written [A-Za-z] in the source. -/
def isAsciiLetter (c : Char) : Bool :=
  let n := c.toNat
  (0x41 ≤ n && n ≤ 0x5A) || (0x61 ≤ n && n ≤ 0x7A)

/-- A character of the main Gujarati block U+0A80..U+0AFF, the class the
source writes as a codepoint range; it includes base characters, matras
and digits alike. -/
def isGujaratiChar (c : Char) : Bool :=
  0x0A80 ≤ c.toNat && c.toNat ≤ 0x0AFF

/-- A Gujarati codepoint that Python treats as a word character for
backslash-b: the letters (categories Lo) and the decimal digits of the
block; combining signs, matras and symbols are excluded. -/
def isGujaratiWordChar (c : Char) : Bool :=
  let n := c.toNat
  ((0x0A85 ≤ n && n ≤ 0x0AB9) &&
    !(n == 0x0A8E || n == 0x0A92 || n == 0x0AA9 || n == 0x0AB1 || n == 0x0AB4)) ||
  (n == 0x0ABD) || (n == 0x0AD0) || (n == 0x0AE0) || (n == 0x0AE1) ||
  (n == 0x0AF9) ||
  (0x0AE6 ≤ n && n ≤ 0x0AEF)

/-- Python regex word character (backslash-w), restricted to the scripts
this program processes: ASCII alphanumerics, underscore, and Gujarati
letters and digits. -/
def isWordChar (c : Char) : Bool :=
  isAsciiLetter c || isAsciiDigit c || (c.toNat == 0x5F) || isGujaratiWordChar c

/-- Python regex digit (backslash-d) on the scripts in play: ASCII digits
and the Gujarati decimal digits U+0AE6..U+0AEF. -/
def isPyDigit (c : Char) : Bool :=
  isAsciiDigit c || (0x0AE6 ≤ c.toNat && c.toNat ≤ 0x0AEF)

/-- Codepoints of the punctuation class of the source, in source order:
danda, double danda, period, comma, bang, question mark, semicolon,
colon, double quote, apostrophe, parentheses, square brackets, curly
brackets, hyphen, en dash, em dash, underscore, slash, backslash, at
sign, hash, dollar, percent, caret, ampersand, asterisk, plus, equals,
angle brackets, vertical bar, grave accent, tilde. -/
def punctCodes : List Nat :=
  [0x964, 0x965, 0x2E, 0x2C, 0x21, 0x3F, 0x3B, 0x3A, 0x22, 0x27,
   0x28, 0x29, 0x5B, 0x5D, 0x7B, 0x7D, 0x2D, 0x2013, 0x2014, 0x5F,
   0x2F, 0x5C, 0x40, 0x23, 0x24, 0x25, 0x5E, 0x26, 0x2A, 0x2B,
   0x3D, 0x3C, 0x3E, 0x7C, 0x60, 0x7E]

/-- Membership in the punctuation character class of the source. -/
def isPunctChar (c : Char) : Bool :=
  punctCodes.contains c.toNat

/-- The local-part class of the email pattern: [A-Za-z0-9._%+-]. -/
def emailLocalChar (c : Char) : Bool :=
  isAsciiLetter c || isAsciiDigit c ||
  (c.toNat == 0x2E) || (c.toNat == 0x5F) || (c.toNat == 0x25) ||
  (c.toNat == 0x2B) || (c.toNat == 0x2D)

/-- The domain class of the email pattern: [A-Za-z0-9.-]. -/
def emailDomainChar (c : Char) : Bool :=
  isAsciiLetter c || isAsciiDigit c || (c.toNat == 0x2E) || (c.toNat == 0x2D)

/-- The top-level-domain class of the email pattern, [A-Z|a-z]: the
source includes a literal vertical bar inside the class. -/
def emailTldChar (c : Char) : Bool :=
  let n := c.toNat
  (0x41 ≤ n && n ≤ 0x5A) || (n == 0x7C) || (0x61 ≤ n && n ≤ 0x7A)

/-- The host class of the bare-domain url alternative: [a-zA-Z0-9.-]. -/
def urlHostChar (c : Char) : Bool :=
  isAsciiLetter c || isAsciiDigit c || (c.toNat == 0x2E) || (c.toNat == 0x2D)

/-- The class written as a negated whitespace class in the url pattern. -/
def nonSpaceChar (c : Char) : Bool :=
  !(isPySpace c)

/-- The date separator class: slash or hyphen. -/
def dateSepChar (c : Char) : Bool :=
  (c.toNat == 0x2F) || (c.toNat == 0x2D)

/-- Sentence terminator characters of the split pattern: danda, double
danda, period, bang, question mark. -/
def termCharB (c : Char) : Bool :=
  (c.toNat == 0x964) || (c.toNat == 0x965) || (c.toNat == 0x2E) ||
  (c.toNat == 0x21) || (c.toNat == 0x3F)

/-- Regular expressions of the shape the source uses: single-character
classes, literals folded into classes, sequencing, ordered alternation,
greedy bounded or unbounded repetition of a character class, and the
word-boundary assertion.  Every repetition in the source patterns is
over a one-character class, which this grammar makes explicit. -/
inductive Re where
  | eps : Re
  | cls : (Char → Bool) → Re
  | wb : Re
  | seq : Re → Re → Re
  | alt : Re → Re → Re
  | rep : (Char → Bool) → Nat → Option Nat → Re

/-- Word-character test lifted to the optional character before or after
a position (no character counts as non-word). -/
def isWordO : Option Char → Bool
  | none => false
  | some c => isWordChar c

/-- Length of the maximal prefix run of characters satisfying a class. -/
def runLen (p : Char → Bool) : List Char → Nat
  | [] => 0
  | a :: rest => if p a then runLen p rest + 1 else 0

/-- Drop n characters, tracking the character preceding the new
position (needed for word-boundary assertions after a repetition). -/
def dropPrev : Nat → Option Char → List Char → List Char × Option Char
  | 0, p, s => (s, p)
  | _ + 1, p, [] => ([], p)
  | n + 1, _, a :: s => dropPrev n (some a) s

/-- All ways a prefix of `s` can be consumed by the pattern, as pairs of
remaining input and preceding character, in exactly the priority order
the Python backtracking engine tries them: left alternative before
right, longer repetition before shorter.  The head of this list is the
match `re` reports; the list is empty exactly when the pattern fails. -/
def Re.allMatches : Re → Option Char → List Char → List (List Char × Option Char)
  | Re.eps, p, s => [(s, p)]
  | Re.cls q, p, s =>
    match s, p with
    | [], _ => []
    | a :: rest, _ => if q a then [(rest, some a)] else []
  | Re.wb, p, s => if isWordO p != isWordO s.head? then [(s, p)] else []
  | Re.seq r1 r2, p, s =>
    (r1.allMatches p s).flatMap (fun pr => r2.allMatches pr.2 pr.1)
  | Re.alt r1 r2, p, s => r1.allMatches p s ++ r2.allMatches p s
  | Re.rep q lo hi, p, s =>
    let run := runLen q s
    let m := match hi with
      | none => run
      | some h => min run h
    if lo ≤ m then
      (List.range (m + 1 - lo)).map (fun i => dropPrev (m - i) p s)
    else []

/-- A single literal character as a one-element class. -/
def chrRe (c : Char) : Re :=
  Re.cls (fun x => x == c)

/-- A literal string as a sequence of one-element classes. -/
def strRe (s : String) : Re :=
  s.toList.foldr (fun c r => Re.seq (chrRe c) r) Re.eps

/-- One-or-more repetition of a class. -/
def plusRe (q : Char → Bool) : Re :=
  Re.rep q 1 none

/-- Zero-or-more repetition of a class. -/
def starRe (q : Char → Bool) : Re :=
  Re.rep q 0 none

/-- Sequence of a list of patterns. -/
def seqAll (rs : List Re) : Re :=
  rs.foldr Re.seq Re.eps

/-- The email rule of the source. -/
def emailRe : Re :=
  seqAll [Re.wb, plusRe emailLocalChar, chrRe '@', plusRe emailDomainChar,
          chrRe '.', Re.rep emailTldChar 2 none, Re.wb]

/-- The url rule of the source: an http(s) scheme, a www prefix, or a
bare domain, as a three-way ordered alternation. -/
def urlRe : Re :=
  Re.alt
    (seqAll [strRe "http", Re.rep (fun c => c == 's') 0 (some 1),
             strRe "://", plusRe nonSpaceChar])
    (Re.alt
      (seqAll [strRe "www.", plusRe nonSpaceChar])
      (seqAll [Re.wb, plusRe urlHostChar, chrRe '.',
               Re.rep isAsciiLetter 2 none, starRe nonSpaceChar]))

/-- The decimal number rule of the source. -/
def decimalRe : Re :=
  seqAll [Re.wb, plusRe isPyDigit, chrRe '.', plusRe isPyDigit, Re.wb]

/-- The integer rule of the source. -/
def integerRe : Re :=
  seqAll [Re.wb, plusRe isPyDigit, Re.wb]

/-- The date rule of the source: day-month-year or year-month-day with
slash or hyphen separators, as an ordered alternation. -/
def dateRe : Re :=
  Re.alt
    (seqAll [Re.wb, Re.rep isPyDigit 1 (some 2), Re.cls dateSepChar,
             Re.rep isPyDigit 1 (some 2), Re.cls dateSepChar,
             Re.rep isPyDigit 2 (some 4), Re.wb])
    (seqAll [Re.wb, Re.rep isPyDigit 4 (some 4), Re.cls dateSepChar,
             Re.rep isPyDigit 1 (some 2), Re.cls dateSepChar,
             Re.rep isPyDigit 1 (some 2), Re.wb])

/-- The punctuation rule of the source: a single class character. -/
def punctRe : Re :=
  Re.cls isPunctChar

/-- The Gujarati word rule of the source. -/
def gujaratiRe : Re :=
  plusRe isGujaratiChar

/-- The English word rule of the source. -/
def englishRe : Re :=
  plusRe isAsciiLetter

/-- The whitespace rule of the source. -/
def whitespaceRe : Re :=
  plusRe isPySpace

/-- The unified token pattern: the ordered alternation of all nine rules
in dictionary insertion order, exactly as the source joins them (note
integer precedes date here, unlike the classification order). -/
def combinedRe : Re :=
  Re.alt emailRe (Re.alt urlRe (Re.alt decimalRe (Re.alt integerRe
    (Re.alt dateRe (Re.alt punctRe (Re.alt gujaratiRe
      (Re.alt englishRe whitespaceRe)))))))

/-- Anchored match of a rule against a full token, as `re.match` in
`classify_token`: true exactly when some prefix of the token matches. -/
def reMatch (r : Re) (t : String) : Bool :=
  !(r.allMatches none t.toList).isEmpty

/-- classify_token of the source: try the rules with `re.match` in the
fixed order email, url, decimal_number, date, integer, punctuation,
gujarati_word, english_word, and fall back to other. -/
def classifyToken (t : String) : String :=
  if reMatch emailRe t then "email"
  else if reMatch urlRe t then "url"
  else if reMatch decimalRe t then "decimal_number"
  else if reMatch dateRe t then "date"
  else if reMatch integerRe t then "integer"
  else if reMatch punctRe t then "punctuation"
  else if reMatch gujaratiRe t then "gujarati_word"
  else if reMatch englishRe t then "english_word"
  else "other"

/-- The scan loop behind `findall`: at each position try the combined
alternation; on failure advance one character, on success emit the
consumed prefix as a token and continue after it, carrying the
preceding character for word-boundary tests.  Fuel bounds the recursion
and is instantiated with the input length, which suffices because every
step consumes at least one character. -/
def scanAux : Nat → Option Char → List Char → List (List Char)
  | 0, _, _ => []
  | fuel + 1, p, s =>
    match s with
    | [] => []
    | a :: rest =>
      match (combinedRe.allMatches p s).head? with
      | none => scanAux fuel (some a) rest
      | some pr =>
        s.take (s.length - pr.1.length) :: scanAux fuel pr.2 pr.1

/-- All raw matches of the combined pattern over a character list. -/
def scanTokens (s : List Char) : List (List Char) :=
  scanAux s.length none s

/-- A token the source filter drops: one that fully matches the
whitespace-only pattern, that is a nonempty all-whitespace token. -/
def isWsOnlyTok (t : List Char) : Bool :=
  !t.isEmpty && t.all isPySpace

/-- word_tokenize of the source: enumerate the combined-pattern matches
in order, keep each match that is not pure whitespace. -/
def wordTokenize (text : String) : List String :=
  ((scanTokens text.toList).filter (fun t => !(isWsOnlyTok t))).map
    (fun t => String.mk t)

/-- Strip Unicode whitespace from both ends, as Python str.strip. -/
def pyStripL (l : List Char) : List Char :=
  (((l.dropWhile isPySpace).reverse.dropWhile isPySpace)).reverse

/-- The split loop behind `re.split(r'[।॥.!?]+\s*', ...)`: accumulate
the current piece until a terminator, then consume the whole terminator
run and any following whitespace and start a new piece.  Fuel is
instantiated with the input length; every step consumes at least one
character. -/
def splitSentAux : Nat → List Char → List Char → List (List Char)
  | 0, _, acc => [acc.reverse]
  | fuel + 1, s, acc =>
    match s with
    | [] => [acc.reverse]
    | a :: rest =>
      if termCharB a then
        acc.reverse ::
          splitSentAux fuel ((rest.dropWhile termCharB).dropWhile isPySpace) []
      else splitSentAux fuel rest (a :: acc)

/-- The pieces `re.split` produces on the sentence pattern. -/
def sentSplit (s : List Char) : List (List Char) :=
  splitSentAux s.length s []

/-- sentence_tokenize of the source: strip the text, split on
terminator runs with trailing whitespace, strip each piece and keep the
nonempty ones. -/
def sentenceTokenize (text : String) : List String :=
  (((sentSplit (pyStripL text.toList)).map pyStripL).filter
    (fun l => !l.isEmpty)).map (fun l => String.mk l)

/-- The per-sentence record built by tokenize_paragraph: sentence text,
its tokens, the classified token pairs, and the token count. -/
structure SentenceResult where
  text : String
  words : List String
  classified_words : List (String × String)
  word_count : Nat
deriving DecidableEq, Repr

/-- The Document Result built by tokenize_paragraph: original text,
sentence records, running token total, and the codepoint length of the
original text. -/
structure DocResult where
  original_text : String
  sentences : List SentenceResult
  total_words : Nat
  total_characters : Nat
deriving DecidableEq, Repr

/-- The sentence record built in the loop body of tokenize_paragraph. -/
def mkSentenceResult (sentence : String) : SentenceResult :=
  let words := wordTokenize sentence
  { text := sentence
    words := words
    classified_words := words.map (fun w => (w, classifyToken w))
    word_count := words.length }

/-- tokenize_paragraph of the source: sentence-split the paragraph,
tokenize and classify each sentence, accumulate the token total, and
record the codepoint count of the original text. -/
def tokenizeParagraph (paragraph : String) : DocResult :=
  let sentences := (sentenceTokenize paragraph).map mkSentenceResult
  { original_text := paragraph
    sentences := sentences
    total_words := (sentences.map (fun s => s.word_count)).sum
    total_characters := paragraph.length }

/-- A dataset record: a mapping that may or may not carry a text field,
as read by `example.get('text', '')`. -/
structure Record where
  text : Option String
deriving DecidableEq, Repr

/-- The text field of a record, defaulting to the empty string. -/
def recordText (r : Record) : String :=
  r.text.getD ""

/-- The loop of process_dataset: enumerate records, break as soon as
the running index reaches max_examples, skip records whose text strips
to nothing, and tokenize the rest in order.  The progress prints of the
source are observability only and have no counterpart here. -/
def processDatasetGo (max_examples : Nat) : List Record → Nat → List DocResult
  | [], _ => []
  | r :: rest, i =>
    if max_examples ≤ i then []
    else if (pyStripL (recordText r).toList).isEmpty then
      processDatasetGo max_examples rest (i + 1)
    else
      tokenizeParagraph (recordText r) :: processDatasetGo max_examples rest (i + 1)

/-- process_dataset of the source, over an in-memory record list. -/
def processDataset (dataset : List Record) (max_examples : Nat) : List DocResult :=
  processDatasetGo max_examples dataset 0

/-- Round a rational to the nearest integer, ties to even, as Python
round does on the exact value. -/
def rne (q : ℚ) : ℤ :=
  let f := ⌊q⌋
  let r := q - (f : ℚ)
  if r < 1 / 2 then f
  else if 1 / 2 < r then f + 1
  else if f % 2 = 0 then f else f + 1

/-- Round a rational to n decimal digits, ties to even, modelling
`round(x, n)` with the float x taken as an exact rational. -/
def roundTo (q : ℚ) (n : ℕ) : ℚ :=
  ((rne (q * (10 : ℚ) ^ n) : ℚ)) / (10 : ℚ) ^ n

/-- The Corpus Statistics record returned by compute_corpus_statistics,
one field per key of the statistics dictionary. -/
structure CorpusStatistics where
  total_sentences : Nat
  total_words : Nat
  total_characters : Nat
  average_sentence_length : ℚ
  average_word_length : ℚ
  type_token_ratio : ℚ
  total_unique_words : Nat
deriving DecidableEq, Repr

/-- All sentence records of a collection of Document Results, in
iteration order of the accumulation loop. -/
def allSentences (rs : List DocResult) : List SentenceResult :=
  rs.flatMap (fun d => d.sentences)

/-- All token texts of a collection of Document Results, as the
all_words list the accumulation loop extends sentence by sentence. -/
def allWords (rs : List DocResult) : List String :=
  (allSentences rs).flatMap (fun s => s.words)

/-- compute_corpus_statistics of the source: one accumulation pass over
documents and sentences, then the three guarded ratios, rounded to two
decimal digits for the lengths and four for the type-token ratio before
they are stored in the returned record. -/
def computeCorpusStatistics (processed_data : List DocResult) : CorpusStatistics :=
  let total_sentences : Nat := (allSentences processed_data).length
  let total_words : Nat := ((allSentences processed_data).map (fun s => s.words.length)).sum
  let total_characters : Nat := (processed_data.map (fun d => d.total_characters)).sum
  let all_words := allWords processed_data
  let avg_sentence_length : ℚ :=
    if 0 < total_sentences then (total_words : ℚ) / (total_sentences : ℚ) else 0
  let total_word_chars : Nat := (all_words.map (fun w => w.length)).sum
  let avg_word_length : ℚ :=
    if 0 < total_words then (total_word_chars : ℚ) / (total_words : ℚ) else 0
  let unique_words := all_words.dedup
  let ttr : ℚ :=
    if 0 < total_words then (unique_words.length : ℚ) / (total_words : ℚ) else 0
  { total_sentences := total_sentences
    total_words := total_words
    total_characters := total_characters
    average_sentence_length := roundTo avg_sentence_length 2
    average_word_length := roundTo avg_word_length 2
    type_token_ratio := roundTo ttr 4
    total_unique_words := unique_words.length }

/-- The exact unrounded average sentence length of a collection, as the
formulas of the specification define it (zero when there is no
sentence).  This definition follows the wording of the specification,
for comparison with the value the code returns. -/
def specAvgSentenceLength (rs : List DocResult) : ℚ :=
  let st := computeCorpusStatistics rs
  if 0 < st.total_sentences then (st.total_words : ℚ) / (st.total_sentences : ℚ) else 0

/-- The exact unrounded average word length of a collection, following
the wording of the specification. -/
def specAvgWordLength (rs : List DocResult) : ℚ :=
  let st := computeCorpusStatistics rs
  if 0 < st.total_words then
    (Nat.cast (((allWords rs).map (fun w => w.length)).sum) : ℚ) / (st.total_words : ℚ)
  else 0

/-- The exact unrounded type-token ratio of a collection, following the
wording of the specification. -/
def specTypeTokenRatio (rs : List DocResult) : ℚ :=
  let st := computeCorpusStatistics rs
  if 0 < st.total_words then
    (Nat.cast ((allWords rs).dedup.length) : ℚ) / (st.total_words : ℚ)
  else 0

/-- The classification rule table in precedence order, paired with the
category names the source returns; the fallback category other is not a
rule.  This table is the specification-side rendering of the fixed
precedence chain, for comparison with the if-chain of classify_token. -/
def precedenceRules : List (String × Re) :=
  [("email", emailRe), ("url", urlRe), ("decimal_number", decimalRe),
   ("date", dateRe), ("integer", integerRe), ("punctuation", punctRe),
   ("gujarati_word", gujaratiRe), ("english_word", englishRe)]

/-- The first rule of the precedence table whose anchored prefix match
succeeds, or other when none does. -/
def firstRuleCategory (t : String) : String :=
  match precedenceRules.find? (fun pr => reMatch pr.2 t) with
  | some pr => pr.1
  | none => "other"

/-- The nine category names classify_token can return. -/
def categoryNames : List String :=
  ["email", "url", "decimal_number", "integer", "date", "punctuation",
   "gujarati_word", "english_word", "other"]

/-- A pattern that can never succeed without consuming at least one
character: a class consumes one, a sequence is consuming when either
part is, an alternation when both parts are, a repetition when its
lower bound is positive.  All nine rules of the source are consuming,
which is why the findall scan always makes progress. -/
def nonNullable : Re → Bool
  | Re.eps => false
  | Re.cls _ => true
  | Re.wb => false
  | Re.seq r1 r2 => nonNullable r1 || nonNullable r2
  | Re.alt r1 r2 => nonNullable r1 && nonNullable r2
  | Re.rep _ lo _ => decide (1 ≤ lo)

/-- A character the word-segmentation rules of the source always cover:
a Gujarati-block character, an ASCII letter, or a listed punctuation
symbol.  Digits are deliberately absent: the integer and date rules
demand a word boundary, so a digit preceded by a word character can be
skipped by the scan. -/
def coveredChar (c : Char) : Bool :=
  isGujaratiChar c || isAsciiLetter c || isPunctChar c

/-- The worked example text of the specification. -/
def exampleText : String :=
  "આજે હું દુકાને ગયો. મેં ખાણાની વસ્તુઓ ખરીદી। મારું ઇમેઇલ test@example.com છે."

/-- The third sentence as the specification quotes it, with the email
address intact. -/
def exampleSentence : String :=
  "મારું ઇમેઇલ test@example.com છે"

/-- Claim C4, counterexample: on the worked example text,
sentence_tokenize returns four sentences, not three, because the split
pattern also fires on the period inside the email address. -/
theorem claim_C4_counterexample :
    (sentenceTokenize exampleText).length = 4 ∧
    ¬ ((sentenceTokenize exampleText).length = 3) := by
  constructor
  · decide
  · decide

/-- Claim C4, amended: on the worked example text sentence_tokenize
returns exactly four sentences (the period of the email address is
consumed as a sentence boundary, splitting the third sentence in two),
and word_tokenize applied to the quoted sentence with the email intact
yields the token test at example.com, classified email, together with
Gujarati-script tokens classified gujarati_word. -/
theorem claim_C4_amended :
    sentenceTokenize exampleText =
      ["આજે હું દુકાને ગયો", "મેં ખાણાની વસ્તુઓ ખરીદી",
       "મારું ઇમેઇલ test@example", "com છે"] ∧
    wordTokenize exampleSentence = ["મારું", "ઇમેઇલ", "test@example.com", "છે"] ∧
    classifyToken "test@example.com" = "email" ∧
    classifyToken "મારું" = "gujarati_word" ∧
    classifyToken "ઇમેઇલ" = "gujarati_word" ∧
    classifyToken "છે" = "gujarati_word" := by
  refine ⟨by decide, by decide, by decide, by decide, by decide, by decide⟩

/-- Claim C5, counterexample: classify_token on the token 123abc
returns other, not integer: the integer rule demands a trailing word
boundary, which fails between the digit 3 and the letter a. -/
theorem claim_C5_counterexample :
    classifyToken "123abc" = "other" ∧ ¬ (classifyToken "123abc" = "integer") := by
  constructor
  · decide
  · decide

/-- Claim C5, amended: classification is an anchored prefix match that
does not require a rule to consume the entire token (the Gujarati rule
matches only the first character of the mixed token and still
classifies it), but 123abc is classified other, not integer, because
the integer rule ends in a word boundary that fails inside the token. -/
theorem claim_C5_amended :
    (gujaratiRe.allMatches none "ગab".toList).head? = some (['a', 'b'], some 'ગ') ∧
    classifyToken "ગab" = "gujarati_word" ∧
    classifyToken "123abc" = "other" := by
  refine ⟨by decide, by decide, by decide⟩

/-- Claim C6, counterexample: word_tokenize splits the date 25/07/2025
into five tokens, because the unified segmentation alternation tries
the integer rule before the date rule. -/
theorem claim_C6_counterexample :
    wordTokenize "25/07/2025" = ["25", "/", "07", "/", "2025"] ∧
    ¬ (wordTokenize "25/07/2025" = ["25/07/2025"]) := by
  constructor
  · decide
  · decide

/-- Claim C6, amended: word_tokenize on 25/07/2025 returns the five
tokens 25, slash, 07, slash, 2025 (classified integer and punctuation),
while classify_token applied to the whole string 25/07/2025 does return
date. -/
theorem claim_C6_amended :
    wordTokenize "25/07/2025" = ["25", "/", "07", "/", "2025"] ∧
    (wordTokenize "25/07/2025").map classifyToken =
      ["integer", "punctuation", "integer", "punctuation", "integer"] ∧
    classifyToken "25/07/2025" = "date" := by
  refine ⟨by decide, by decide, by decide⟩

/-- Claim C7: word_tokenize on 3.14 returns the single token 3.14, and
classify_token labels it decimal_number, not integer, although the
integer rule also prefix-matches the token: the decimal rule comes
first in the precedence order. -/
theorem claim_C7_decimal_example :
    wordTokenize "3.14" = ["3.14"] ∧
    classifyToken "3.14" = "decimal_number" ∧
    reMatch integerRe "3.14" = true ∧
    ¬ (classifyToken "3.14" = "integer") := by
  refine ⟨by decide, by decide, by decide, by decide⟩

theorem avg_sentence_field (rs : List DocResult) :
    (computeCorpusStatistics rs).average_sentence_length =
      roundTo (if 0 < (allSentences rs).length then
        (Nat.cast (((allSentences rs).map (fun s => s.words.length)).sum) : ℚ) /
          (Nat.cast ((allSentences rs).length) : ℚ)
      else 0) 2 := rfl

theorem total_words_field (rs : List DocResult) :
    (computeCorpusStatistics rs).total_words =
      ((allSentences rs).map (fun s => s.words.length)).sum := rfl

theorem total_sentences_field (rs : List DocResult) :
    (computeCorpusStatistics rs).total_sentences = (allSentences rs).length := rfl

theorem floor_two_hundred_thirds : ⌊(200 : ℚ) / 3⌋ = 66 := by
  rw [Int.floor_eq_iff]
  norm_num

theorem roundTo_two_thirds : roundTo ((2 : ℚ) / 3) 2 = 67 / 100 := by
  have h : (2 : ℚ) / 3 * (10 : ℚ) ^ (2 : ℕ) = (200 : ℚ) / 3 := by norm_num
  have hr : rne ((200 : ℚ) / 3) = 67 := by
    rw [rne, floor_two_hundred_thirds]
    norm_num
  rw [roundTo, h, hr]
  norm_num

theorem floor_hundred_thirds : ⌊(100 : ℚ) / 3⌋ = 33 := by
  rw [Int.floor_eq_iff]
  norm_num

theorem roundTo_one_third : roundTo ((1 : ℚ) / 3) 2 = 33 / 100 := by
  have h : (1 : ℚ) / 3 * (10 : ℚ) ^ (2 : ℕ) = (100 : ℚ) / 3 := by norm_num
  have hr : rne ((100 : ℚ) / 3) = 33 := by
    rw [rne, floor_hundred_thirds]
    norm_num
  rw [roundTo, h, hr]
  norm_num

theorem avg_word_field (rs : List DocResult) :
    (computeCorpusStatistics rs).average_word_length =
      roundTo (if 0 < ((allSentences rs).map (fun s => s.words.length)).sum then
        (Nat.cast (((allWords rs).map (fun w => w.length)).sum) : ℚ) /
          (Nat.cast (((allSentences rs).map (fun s => s.words.length)).sum) : ℚ)
      else 0) 2 := rfl

theorem ttr_field (rs : List DocResult) :
    (computeCorpusStatistics rs).type_token_ratio =
      roundTo (if 0 < ((allSentences rs).map (fun s => s.words.length)).sum then
        (Nat.cast ((allWords rs).dedup.length) : ℚ) /
          (Nat.cast (((allSentences rs).map (fun s => s.words.length)).sum) : ℚ)
      else 0) 4 := rfl

theorem unique_words_field (rs : List DocResult) :
    (computeCorpusStatistics rs).total_unique_words = (allWords rs).dedup.length := rfl

theorem rne_zero : rne 0 = 0 := by
  simp only [rne]
  norm_num

theorem roundTo_zero (n : ℕ) : roundTo 0 n = 0 := by
  rw [roundTo]
  norm_num [rne_zero]

theorem rne_intCast (k : ℤ) : rne (k : ℚ) = k := by
  simp only [rne]
  norm_num

theorem roundTo_idem (q : ℚ) (n : ℕ) : roundTo (roundTo q n) n = roundTo q n := by
  have h10 : ((10 : ℚ) ^ n) ≠ 0 := by positivity
  have h : roundTo q n * (10 : ℚ) ^ n = ((rne (q * (10 : ℚ) ^ n) : ℤ) : ℚ) := by
    rw [roundTo]
    field_simp
  conv_lhs => rw [roundTo]
  rw [h, rne_intCast, roundTo]

/-- Claim C3, amended: compute_corpus_statistics is total, the zero
cases are ordinary zero results, and the returned ratios are the
specification formulas rounded to two decimal digits for the average
lengths and four for the type-token ratio (the source rounds before
storing the values in the returned record). -/
theorem claim_C3_amended (results : List DocResult) :
    ((computeCorpusStatistics results).total_sentences = 0 →
      (computeCorpusStatistics results).average_sentence_length = 0) ∧
    ((computeCorpusStatistics results).total_words = 0 →
      (computeCorpusStatistics results).average_word_length = 0) ∧
    ((computeCorpusStatistics results).total_words = 0 →
      (computeCorpusStatistics results).type_token_ratio = 0) ∧
    (computeCorpusStatistics results).average_sentence_length =
      roundTo (specAvgSentenceLength results) 2 ∧
    (computeCorpusStatistics results).average_word_length =
      roundTo (specAvgWordLength results) 2 ∧
    (computeCorpusStatistics results).type_token_ratio =
      roundTo (specTypeTokenRatio results) 4 := by
  refine ⟨?_, ?_, ?_, rfl, rfl, rfl⟩
  · intro h
    rw [total_sentences_field] at h
    rw [avg_sentence_field, h]
    simp [roundTo_zero]
  · intro h
    rw [total_words_field] at h
    rw [avg_word_field, h]
    simp [roundTo_zero]
  · intro h
    rw [total_words_field] at h
    rw [ttr_field, h]
    simp [roundTo_zero]

/-- Claim C3, witness: the amended claim applied to the empty
collection, whose statistics have no sentence and no word. -/
theorem claim_C3_amended_witness :
    (computeCorpusStatistics []).average_sentence_length = 0 ∧
    (computeCorpusStatistics []).average_word_length = 0 ∧
    (computeCorpusStatistics []).type_token_ratio = 0 :=
  ⟨(claim_C3_amended []).1 (by decide),
   (claim_C3_amended []).2.1 (by decide),
   (claim_C3_amended []).2.2.1 (by decide)⟩

/-- Claim C8, amended: the values stored in the returned statistics are
the exact ratios of the specification formulas rounded to two decimal
digits for the lengths and four for the type-token ratio, so they carry
only that precision; rounding them again at presentation time is the
identity. -/
theorem claim_C8_amended (results : List DocResult) :
    (computeCorpusStatistics results).average_sentence_length =
      roundTo (specAvgSentenceLength results) 2 ∧
    (computeCorpusStatistics results).average_word_length =
      roundTo (specAvgWordLength results) 2 ∧
    (computeCorpusStatistics results).type_token_ratio =
      roundTo (specTypeTokenRatio results) 4 ∧
    roundTo ((computeCorpusStatistics results).average_sentence_length) 2 =
      (computeCorpusStatistics results).average_sentence_length ∧
    roundTo ((computeCorpusStatistics results).average_word_length) 2 =
      (computeCorpusStatistics results).average_word_length ∧
    roundTo ((computeCorpusStatistics results).type_token_ratio) 4 =
      (computeCorpusStatistics results).type_token_ratio := by
  refine ⟨rfl, rfl, rfl, ?_, ?_, ?_⟩
  · show roundTo (roundTo (specAvgSentenceLength results) 2) 2 = _
    rw [roundTo_idem]
    rfl
  · show roundTo (roundTo (specAvgWordLength results) 2) 2 = _
    rw [roundTo_idem]
    rfl
  · show roundTo (roundTo (specTypeTokenRatio results) 4) 4 = _
    rw [roundTo_idem]
    rfl

/-- Claim C1: classify_token is total and deterministic: on every input
it returns the category of the first rule in the fixed precedence order
email, url, decimal_number, date, integer, punctuation, gujarati_word,
english_word whose anchored prefix match succeeds, other when none
does, and the result is always one of the nine category names. -/
theorem claim_C1_classify_token_total_first_match (t : String) :
    classifyToken t = firstRuleCategory t ∧ classifyToken t ∈ categoryNames := by
  cases h1 : reMatch emailRe t <;> cases h2 : reMatch urlRe t <;>
    cases h3 : reMatch decimalRe t <;> cases h4 : reMatch dateRe t <;>
    cases h5 : reMatch integerRe t <;> cases h6 : reMatch punctRe t <;>
    cases h7 : reMatch gujaratiRe t <;> cases h8 : reMatch englishRe t <;>
    simp [classifyToken, firstRuleCategory, precedenceRules, categoryNames,
      List.find?, h1, h2, h3, h4, h5, h6, h7, h8]

/-- Claim C3, counterexample: the statistics returned on this one
document (three sentences, two tokens) carry a rounded average sentence
length 67/100, not the exact ratio 2/3 the claim states. -/
theorem claim_C3_counterexample :
    ¬ ((computeCorpusStatistics [tokenizeParagraph "ગ. ગ. é."]).average_sentence_length =
      ((computeCorpusStatistics [tokenizeParagraph "ગ. ગ. é."]).total_words : ℚ) /
        ((computeCorpusStatistics [tokenizeParagraph "ગ. ગ. é."]).total_sentences : ℚ)) := by
  have hw : ((allSentences [tokenizeParagraph "ગ. ગ. é."]).map
      (fun s => s.words.length)).sum = 2 := by decide
  have hs : (allSentences [tokenizeParagraph "ગ. ગ. é."]).length = 3 := by decide
  rw [avg_sentence_field, total_words_field, total_sentences_field, hw, hs]
  norm_num [roundTo_two_thirds]

/-- Claim C8, counterexample: on this one document (three sentences,
one token) the returned average sentence length is the rounded value
33/100, not the exact unrounded ratio 1/3 defined by the specification
formulas, so the returned statistics do not preserve full precision. -/
theorem claim_C8_counterexample :
    ¬ ((computeCorpusStatistics [tokenizeParagraph "é. é. ગ."]).average_sentence_length =
      specAvgSentenceLength [tokenizeParagraph "é. é. ગ."]) := by
  have hw : ((allSentences [tokenizeParagraph "é. é. ગ."]).map
      (fun s => s.words.length)).sum = 1 := by decide
  have hs : (allSentences [tokenizeParagraph "é. é. ગ."]).length = 3 := by decide
  rw [avg_sentence_field, specAvgSentenceLength, total_words_field,
    total_sentences_field]
  rw [hw, hs]
  norm_num [roundTo_one_third]

theorem processDatasetGo_take (m : Nat) (ds : List Record) :
    ∀ i, processDatasetGo m ds i =
      ((ds.take (m - i)).filter
        (fun r => !(pyStripL (recordText r).toList).isEmpty)).map
        (fun r => tokenizeParagraph (recordText r)) := by
  induction ds with
  | nil =>
    intro i
    simp [processDatasetGo]
  | cons r rest ih =>
    intro i
    have lhs : processDatasetGo m (r :: rest) i =
        if m ≤ i then []
        else if (pyStripL (recordText r).toList).isEmpty then
          processDatasetGo m rest (i + 1)
        else tokenizeParagraph (recordText r) :: processDatasetGo m rest (i + 1) := rfl
    rw [lhs]
    by_cases h : m ≤ i
    · have h0 : m - i = 0 := by omega
      rw [if_pos h, h0]
      simp
    · have h2 : m - i = (m - (i + 1)) + 1 := by omega
      rw [if_neg h, h2, List.take_succ_cons]
      by_cases hb : (pyStripL (recordText r).toList).isEmpty
      · rw [if_pos hb, ih]
        have hb2 : pyStripL (recordText r).data = [] := by simpa using hb
        simp only [List.filter_cons]
        rw [if_neg (by simp [hb2])]
      · rw [if_neg hb, ih]
        have hb2 : ¬ pyStripL (recordText r).data = [] := by simpa using hb
        simp only [List.filter_cons]
        rw [if_pos (by simp [hb2])]
        simp

/-- Claim C10: process_dataset inspects only the first max_examples
records of the source, counting skipped blank records against the
limit: the result is exactly the tokenization of the non-blank records
among that prefix, in source order, its length never exceeds
max_examples, and it can be shorter than max_examples even when the
source holds max_examples non-blank records in total (a concrete
three-record source with one blank among the first two shows this). -/
theorem claim_C10_skipped_records_count_toward_limit :
    (∀ (dataset : List Record) (max_examples : Nat),
      processDataset dataset max_examples =
        ((dataset.take max_examples).filter
          (fun r => !(pyStripL (recordText r).toList).isEmpty)).map
          (fun r => tokenizeParagraph (recordText r))) ∧
    (∀ (dataset : List Record) (max_examples : Nat),
      (processDataset dataset max_examples).length ≤ max_examples) ∧
    (processDataset [⟨some " "⟩, ⟨some "ગ"⟩, ⟨some "ક"⟩] 2).length = 1 ∧
    (([⟨some " "⟩, ⟨some "ગ"⟩, ⟨some "ક"⟩] : List Record).filter
      (fun r => !(pyStripL (recordText r).toList).isEmpty)).length = 2 := by
  have key : ∀ (ds : List Record) (m : Nat), processDataset ds m =
      ((ds.take m).filter
        (fun r => !(pyStripL (recordText r).toList).isEmpty)).map
        (fun r => tokenizeParagraph (recordText r)) := by
    intro ds m
    rw [processDataset, processDatasetGo_take]
    simp
  refine ⟨key, ?_, by decide, by decide⟩
  intro ds m
  rw [key]
  simpa using le_trans (List.length_filter_le _ _) (List.length_take_le _ _)

theorem splitSentAux_no_term (fuel : Nat) :
    ∀ (s acc : List Char), (∀ c ∈ acc, termCharB c = false) →
      ∀ piece ∈ splitSentAux fuel s acc, ∀ c ∈ piece, termCharB c = false := by
  induction fuel with
  | zero =>
    intro s acc hacc piece hp c hc
    simp only [splitSentAux, List.mem_singleton] at hp
    subst hp
    exact hacc c (List.mem_reverse.mp hc)
  | succ fuel ih =>
    intro s acc hacc piece hp c hc
    match s with
    | [] =>
      simp only [splitSentAux, List.mem_singleton] at hp
      subst hp
      exact hacc c (List.mem_reverse.mp hc)
    | a :: rest =>
      by_cases ha : termCharB a
      · simp only [splitSentAux, if_pos ha, List.mem_cons] at hp
        rcases hp with hp | hp
        · subst hp
          exact hacc c (List.mem_reverse.mp hc)
        · exact ih _ [] (by simp) piece hp c hc
      · simp only [splitSentAux, if_neg ha] at hp
        refine ih rest (a :: acc) ?_ piece hp c hc
        intro d hd
        rcases List.mem_cons.mp hd with rfl | hd
        · exact Bool.eq_false_iff.mpr ha
        · exact hacc d hd

theorem mem_pyStripL {c : Char} {l : List Char} (h : c ∈ pyStripL l) : c ∈ l := by
  rw [pyStripL] at h
  have h1 : c ∈ (l.dropWhile isPySpace).reverse.dropWhile isPySpace :=
    List.mem_reverse.mp h
  have h2 : c ∈ (l.dropWhile isPySpace).reverse :=
    (List.dropWhile_sublist _).subset h1
  exact (List.dropWhile_sublist _).subset (List.mem_reverse.mp h2)

theorem head?_dropWhile_false {p : Char → Bool} {l : List Char} {c : Char}
    (h : (l.dropWhile p).head? = some c) : p c = false := by
  have := List.head?_dropWhile_not p l
  rw [h] at this
  exact this

theorem getLast?_dropWhile_of_ne_nil {p : Char → Bool} :
    ∀ (l : List Char), l.dropWhile p ≠ [] → (l.dropWhile p).getLast? = l.getLast? := by
  intro l
  induction l with
  | nil => intro h; simp [List.dropWhile] at h
  | cons a rest ih =>
    intro h
    by_cases ha : p a
    · rw [List.dropWhile_cons, if_pos ha] at h ⊢
      rw [ih h]
      have hrest : rest ≠ [] := by
        intro he
        rw [he] at h
        simp [List.dropWhile] at h
      match rest, hrest with
      | b :: t, _ => simp
    · rw [List.dropWhile_cons, if_neg ha]

theorem pyStripL_last {l : List Char} {c : Char}
    (h : (pyStripL l).getLast? = some c) : isPySpace c = false := by
  rw [pyStripL, List.getLast?_reverse] at h
  exact head?_dropWhile_false h

theorem pyStripL_head {l : List Char} {c : Char}
    (h : (pyStripL l).head? = some c) : isPySpace c = false := by
  rw [pyStripL, List.head?_reverse] at h
  have hne : (l.dropWhile isPySpace).reverse.dropWhile isPySpace ≠ [] := by
    intro he
    rw [he] at h
    simp at h
  rw [getLast?_dropWhile_of_ne_nil _ hne, List.getLast?_reverse] at h
  exact head?_dropWhile_false h

/-- Claim C9: every sentence text returned by sentence_tokenize is
nonempty, is stripped of leading and trailing whitespace, and contains
no sentence-terminator character (danda, double danda, period, bang,
question mark); tokenize_paragraph stores exactly these texts in the
Document Result, so no token containing a terminator character (such as
a decimal number, a date, an email or a url) can reach per-sentence
word tokenization intact. -/
theorem claim_C9_sentences_stripped_terminator_free (text s : String)
    (hs : s ∈ sentenceTokenize text) :
    s.toList ≠ [] ∧
    (∀ c, s.toList.head? = some c → isPySpace c = false) ∧
    (∀ c, s.toList.getLast? = some c → isPySpace c = false) ∧
    (∀ c ∈ s.toList, termCharB c = false) ∧
    (tokenizeParagraph text).sentences.map (fun sr => sr.text) =
      sentenceTokenize text := by
  rw [sentenceTokenize] at hs
  rcases List.mem_map.mp hs with ⟨l, hlf, rfl⟩
  rcases List.mem_filter.mp hlf with ⟨hlm, hlne⟩
  rcases List.mem_map.mp hlm with ⟨piece, hpiece, rfl⟩
  have htolist : (String.mk (pyStripL piece)).toList = pyStripL piece := rfl
  refine ⟨?_, ?_, ?_, ?_, ?_⟩
  · rw [htolist]
    intro he
    rw [he] at hlne
    simp at hlne
  · intro c hc
    rw [htolist] at hc
    exact pyStripL_head hc
  · intro c hc
    rw [htolist] at hc
    exact pyStripL_last hc
  · intro c hc
    rw [htolist] at hc
    exact splitSentAux_no_term _ _ [] (by simp) piece hpiece c (mem_pyStripL hc)
  · show ((sentenceTokenize text).map mkSentenceResult).map (fun sr => sr.text) =
      sentenceTokenize text
    rw [List.map_map]
    have hcomp : ((fun sr : SentenceResult => sr.text) ∘ mkSentenceResult) =
        fun s : String => s := funext fun s => rfl
    rw [hcomp, List.map_id']

/-- Claim C9, witness: the single sentence produced on a short concrete
text is nonempty, stripped, and terminator-free. -/
theorem claim_C9_witness :
    ("ગ ક" : String).toList ≠ [] ∧
    (∀ c, ("ગ ક" : String).toList.head? = some c → isPySpace c = false) ∧
    (∀ c, ("ગ ક" : String).toList.getLast? = some c → isPySpace c = false) ∧
    (∀ c ∈ ("ગ ક" : String).toList, termCharB c = false) ∧
    (tokenizeParagraph "ગ ક. ").sentences.map (fun sr => sr.text) =
      sentenceTokenize "ગ ક. " :=
  claim_C9_sentences_stripped_terminator_free "ગ ક. " "ગ ક" (by decide)

theorem runLen_le (q : Char → Bool) : ∀ s : List Char, runLen q s ≤ s.length := by
  intro s
  induction s with
  | nil => simp [runLen]
  | cons a rest ih =>
    rw [runLen]
    by_cases h : q a
    · rw [if_pos h]
      simpa using ih
    · rw [if_neg h]
      simp

theorem dropPrev_fst : ∀ (n : Nat) (p : Option Char) (s : List Char),
    (dropPrev n p s).1 = s.drop n := by
  intro n
  induction n with
  | zero =>
    intro p s
    rfl
  | succ n ih =>
    intro p s
    cases s with
    | nil => simp [dropPrev]
    | cons a rest => simp [dropPrev, ih]

theorem allMatches_drop : ∀ (r : Re) (p : Option Char) (s : List Char),
    ∀ pr ∈ r.allMatches p s, ∃ k, k ≤ s.length ∧ pr.1 = s.drop k := by
  intro r
  induction r with
  | eps =>
    intro p s pr hpr
    simp only [Re.allMatches, List.mem_singleton] at hpr
    subst hpr
    exact ⟨0, Nat.zero_le _, rfl⟩
  | cls q =>
    intro p s pr hpr
    cases s with
    | nil => simp [Re.allMatches] at hpr
    | cons a rest =>
      simp only [Re.allMatches] at hpr
      by_cases hq : q a
      · rw [if_pos hq] at hpr
        simp only [List.mem_singleton] at hpr
        subst hpr
        exact ⟨1, by simp, rfl⟩
      · rw [if_neg hq] at hpr
        simp at hpr
  | wb =>
    intro p s pr hpr
    simp only [Re.allMatches] at hpr
    by_cases hb : isWordO p != isWordO s.head?
    · rw [if_pos hb] at hpr
      simp only [List.mem_singleton] at hpr
      subst hpr
      exact ⟨0, Nat.zero_le _, rfl⟩
    · rw [if_neg hb] at hpr
      simp at hpr
  | seq r1 r2 ih1 ih2 =>
    intro p s pr hpr
    simp only [Re.allMatches, List.mem_flatMap] at hpr
    rcases hpr with ⟨q, hq, hpr2⟩
    rcases ih1 p s q hq with ⟨k1, hk1, he1⟩
    rcases ih2 q.2 q.1 pr hpr2 with ⟨k2, hk2, he2⟩
    refine ⟨k1 + k2, ?_, ?_⟩
    · have : q.1.length = s.length - k1 := by rw [he1, List.length_drop]
      omega
    · rw [he2, he1, List.drop_drop]
  | alt r1 r2 ih1 ih2 =>
    intro p s pr hpr
    simp only [Re.allMatches, List.mem_append] at hpr
    rcases hpr with h | h
    · exact ih1 p s pr h
    · exact ih2 p s pr h
  | rep q lo hi =>
    intro p s pr hpr
    cases hi with
    | none =>
      simp only [Re.allMatches] at hpr
      by_cases hcond : lo ≤ runLen q s
      · rw [if_pos hcond] at hpr
        simp only [List.mem_map, List.mem_range] at hpr
        rcases hpr with ⟨i, hilt, heq⟩
        have hrun := runLen_le q s
        refine ⟨runLen q s - i, by omega, ?_⟩
        rw [← heq, dropPrev_fst]
      · rw [if_neg hcond] at hpr
        simp at hpr
    | some h =>
      simp only [Re.allMatches] at hpr
      by_cases hcond : lo ≤ min (runLen q s) h
      · rw [if_pos hcond] at hpr
        simp only [List.mem_map, List.mem_range] at hpr
        rcases hpr with ⟨i, hilt, heq⟩
        have hrun := runLen_le q s
        have hmin : min (runLen q s) h ≤ runLen q s := Nat.min_le_left _ _
        refine ⟨min (runLen q s) h - i, by omega, ?_⟩
        rw [← heq, dropPrev_fst]
      · rw [if_neg hcond] at hpr
        simp at hpr

theorem allMatches_progress : ∀ (r : Re), nonNullable r = true →
    ∀ (p : Option Char) (s : List Char), ∀ pr ∈ r.allMatches p s,
      pr.1.length < s.length := by
  intro r
  induction r with
  | eps =>
    intro h
    simp [nonNullable] at h
  | wb =>
    intro h
    simp [nonNullable] at h
  | cls q =>
    intro _ p s pr hpr
    cases s with
    | nil => simp [Re.allMatches] at hpr
    | cons a rest =>
      simp only [Re.allMatches] at hpr
      by_cases hq : q a
      · rw [if_pos hq] at hpr
        simp only [List.mem_singleton] at hpr
        subst hpr
        simp
      · rw [if_neg hq] at hpr
        simp at hpr
  | seq r1 r2 ih1 ih2 =>
    intro hn p s pr hpr
    simp only [Re.allMatches, List.mem_flatMap] at hpr
    rcases hpr with ⟨q, hq, hpr2⟩
    rcases allMatches_drop r1 p s q hq with ⟨k1, hk1, he1⟩
    rcases allMatches_drop r2 q.2 q.1 pr hpr2 with ⟨k2, hk2, he2⟩
    have hq1 : q.1.length = s.length - k1 := by rw [he1, List.length_drop]
    have hpr1 : pr.1.length = q.1.length - k2 := by rw [he2, List.length_drop]
    simp only [nonNullable, Bool.or_eq_true] at hn
    rcases hn with hn1 | hn2
    · have := ih1 hn1 p s q hq
      omega
    · have := ih2 hn2 q.2 q.1 pr hpr2
      omega
  | alt r1 r2 ih1 ih2 =>
    intro hn p s pr hpr
    simp only [nonNullable, Bool.and_eq_true] at hn
    simp only [Re.allMatches, List.mem_append] at hpr
    rcases hpr with h | h
    · exact ih1 hn.1 p s pr h
    · exact ih2 hn.2 p s pr h
  | rep q lo hi =>
    intro hn p s pr hpr
    have hlo : 1 ≤ lo := by simpa [nonNullable] using hn
    cases hi with
    | none =>
      simp only [Re.allMatches] at hpr
      by_cases hcond : lo ≤ runLen q s
      · rw [if_pos hcond] at hpr
        simp only [List.mem_map, List.mem_range] at hpr
        rcases hpr with ⟨i, hilt, heq⟩
        have hrun := runLen_le q s
        have h1 : pr.1 = s.drop (runLen q s - i) := by rw [← heq, dropPrev_fst]
        rw [h1, List.length_drop]
        omega
      · rw [if_neg hcond] at hpr
        simp at hpr
    | some h =>
      simp only [Re.allMatches] at hpr
      by_cases hcond : lo ≤ min (runLen q s) h
      · rw [if_pos hcond] at hpr
        simp only [List.mem_map, List.mem_range] at hpr
        rcases hpr with ⟨i, hilt, heq⟩
        have hrun := runLen_le q s
        have hmin : min (runLen q s) h ≤ runLen q s := Nat.min_le_left _ _
        have h1 : pr.1 = s.drop (min (runLen q s) h - i) := by rw [← heq, dropPrev_fst]
        rw [h1, List.length_drop]
        omega
      · rw [if_neg hcond] at hpr
        simp at hpr

theorem rep_one_ne_nil (q : Char → Bool) (p : Option Char) (a : Char)
    (rest : List Char) (ha : q a = true) :
    (Re.rep q 1 none).allMatches p (a :: rest) ≠ [] := by
  simp only [Re.allMatches, runLen, ha, if_true]
  rw [if_pos (by omega)]
  intro he
  simp only [List.map_eq_nil_iff, List.range_eq_nil] at he
  omega

theorem cls_ne_nil (q : Char → Bool) (p : Option Char) (a : Char)
    (rest : List Char) (ha : q a = true) :
    (Re.cls q).allMatches p (a :: rest) ≠ [] := by
  simp [Re.allMatches, ha]

theorem combined_ne_nil (p : Option Char) (a : Char) (rest : List Char)
    (hc : coveredChar a = true) :
    combinedRe.allMatches p (a :: rest) ≠ [] := by
  have expand : combinedRe.allMatches p (a :: rest) =
      emailRe.allMatches p (a :: rest) ++ (urlRe.allMatches p (a :: rest) ++
      (decimalRe.allMatches p (a :: rest) ++ (integerRe.allMatches p (a :: rest) ++
      (dateRe.allMatches p (a :: rest) ++ (punctRe.allMatches p (a :: rest) ++
      (gujaratiRe.allMatches p (a :: rest) ++ (englishRe.allMatches p (a :: rest) ++
      whitespaceRe.allMatches p (a :: rest)))))))) := rfl
  rw [expand]
  simp only [coveredChar, Bool.or_eq_true] at hc
  intro he
  simp only [List.append_eq_nil] at he
  rcases hc with (h | h) | h
  · exact rep_one_ne_nil isGujaratiChar p a rest h he.2.2.2.2.2.2.1
  · exact rep_one_ne_nil isAsciiLetter p a rest h he.2.2.2.2.2.2.2.1
  · exact cls_ne_nil isPunctChar p a rest h he.2.2.2.2.2.1

theorem covered_not_space (c : Char) (h : coveredChar c = true) :
    isPySpace c = false := by
  rw [← Bool.not_eq_true]
  intro hsp
  simp only [isPySpace, Bool.or_eq_true, beq_iff_eq, Bool.and_eq_true,
    decide_eq_true_eq] at hsp
  simp only [coveredChar, Bool.or_eq_true] at h
  rcases h with (h | h) | h
  · simp only [isGujaratiChar, Bool.and_eq_true, decide_eq_true_eq] at h
    omega
  · simp only [isAsciiLetter, Bool.or_eq_true, Bool.and_eq_true,
      decide_eq_true_eq] at h
    omega
  · have hmem : c.toNat ∈ punctCodes := by
      rw [isPunctChar] at h
      exact List.elem_iff.mp h
    simp only [punctCodes, List.mem_cons, List.not_mem_nil, or_false] at hmem
    omega

theorem scanAux_covers : ∀ (fuel : Nat) (p : Option Char) (s : List Char),
    s.length ≤ fuel → ∀ c ∈ s, coveredChar c = true →
      ∃ t ∈ scanAux fuel p s, c ∈ t := by
  intro fuel
  induction fuel with
  | zero =>
    intro p s hlen c hc hcov
    cases s with
    | nil => simp at hc
    | cons a rest => simp at hlen
  | succ fuel ih =>
    intro p s hlen c hc hcov
    cases s with
    | nil => simp at hc
    | cons a rest =>
      rcases hhead : (combinedRe.allMatches p (a :: rest)).head? with _ | pr
      · have hnil : combinedRe.allMatches p (a :: rest) = [] := by
          rwa [List.head?_eq_none_iff] at hhead
        have hscan : scanAux (fuel + 1) p (a :: rest) = scanAux fuel (some a) rest := by
          simp only [scanAux]
          rw [hhead]
        rcases List.mem_cons.mp hc with rfl | hc2
        · exact absurd hnil (combined_ne_nil p c rest hcov)
        · have hlen2 : rest.length ≤ fuel := by
            simp only [List.length_cons] at hlen
            omega
          rcases ih (some a) rest hlen2 c hc2 hcov with ⟨t, ht, hct⟩
          exact ⟨t, by rw [hscan]; exact ht, hct⟩
      · have hmem : pr ∈ combinedRe.allMatches p (a :: rest) := by
          rcases List.head?_eq_some_iff.mp hhead with ⟨ys, hys⟩
          rw [hys]
          exact List.mem_cons_self _ _
        rcases allMatches_drop combinedRe p (a :: rest) pr hmem with ⟨k, hk, hdrop⟩
        have hprog : pr.1.length < (a :: rest).length :=
          allMatches_progress combinedRe rfl p (a :: rest) pr hmem
        have hscan : scanAux (fuel + 1) p (a :: rest) =
            (a :: rest).take ((a :: rest).length - pr.1.length) ::
              scanAux fuel pr.2 pr.1 := by
          simp only [scanAux]
          rw [hhead]
        have htake : (a :: rest).length - pr.1.length = k := by
          rw [hdrop, List.length_drop]
          omega
        have hsplit : c ∈ (a :: rest).take k ++ (a :: rest).drop k := by
          rw [List.take_append_drop]
          exact hc
        rcases List.mem_append.mp hsplit with hctake | hcdrop
        · refine ⟨(a :: rest).take ((a :: rest).length - pr.1.length), ?_, ?_⟩
          · rw [hscan]
            exact List.mem_cons_self _ _
          · rw [htake]
            exact hctake
        · have hlen2 : pr.1.length ≤ fuel := by
            simp only [List.length_cons] at hlen hprog
            omega
          have hcmem : c ∈ pr.1 := by
            rw [hdrop]
            exact hcdrop
          rcases ih pr.2 pr.1 hlen2 c hcmem hcov with ⟨t, ht, hct⟩
          exact ⟨t, by rw [hscan]; exact List.mem_cons_of_mem _ ht, hct⟩

/-- Claim C2, counterexample: the token list of a1b is a, b: the digit
1 lies inside the defined ranges and is not whitespace, yet it appears
in no returned token, because the integer rule demands a word boundary
and both neighbours of the digit are word characters. -/
theorem claim_C2_counterexample :
    wordTokenize "a1b" = ["a", "b"] ∧
    ('1' ∈ ("a1b" : String).toList ∧ isPySpace '1' = false ∧ isPyDigit '1' = true) ∧
    ¬ (∃ t ∈ wordTokenize "a1b", '1' ∈ t.toList) := by
  refine ⟨by decide, by decide, ?_⟩
  decide

/-- Claim C2, amended: every Gujarati-block character, ASCII letter or
listed punctuation symbol of the input appears in some token returned
by word_tokenize, and the token list is nonempty whenever the input
contains such a character; digits however are not covered (a digit
between word characters is lost, as a1b shows), and inputs with no
covered character can tokenize to the empty list. -/
theorem claim_C2_amended :
    (∀ (text : String) (c : Char), c ∈ text.toList → coveredChar c = true →
      ∃ t ∈ wordTokenize text, c ∈ t.toList) ∧
    (∀ text : String, (∃ c ∈ text.toList, coveredChar c = true) →
      wordTokenize text ≠ []) := by
  have main : ∀ (text : String) (c : Char), c ∈ text.toList → coveredChar c = true →
      ∃ t ∈ wordTokenize text, c ∈ t.toList := by
    intro text c hc hcov
    rcases scanAux_covers text.toList.length none text.toList (Nat.le_refl _)
      c hc hcov with ⟨t, ht, hct⟩
    have hall : t.all isPySpace = false := by
      rw [List.all_eq_false]
      exact ⟨c, hct, by simp [covered_not_space c hcov]⟩
    have hkeep : (!(isWsOnlyTok t)) = true := by
      simp [isWsOnlyTok, hall]
    refine ⟨String.mk t, ?_, hct⟩
    rw [wordTokenize]
    apply List.mem_map_of_mem
    rw [List.mem_filter]
    exact ⟨ht, hkeep⟩
  refine ⟨main, ?_⟩
  intro text hex
  rcases hex with ⟨c, hc, hcov⟩
  rcases main text c hc hcov with ⟨t, ht, _⟩
  exact List.ne_nil_of_mem ht

/-- Claim C2, witness: the amended coverage applied to a concrete mixed
text at its Gujarati character. -/
theorem claim_C2_amended_witness :
    ('ગ' ∈ ("ગ a" : String).toList ∧ coveredChar 'ગ' = true ∧
      ∃ t ∈ wordTokenize "ગ a", 'ગ' ∈ t.toList) ∧
    wordTokenize "ગ a" ≠ [] :=
  ⟨⟨by decide, by decide, claim_C2_amended.1 "ગ a" 'ગ' (by decide) (by decide)⟩,
    claim_C2_amended.2 "ગ a" ⟨'ગ', by decide, by decide⟩⟩

end GujTok
